import Mathlib

/-!
Verification of the terminal environment core
(`src/vs/workbench/contrib/terminal/common/terminalEnvironment.ts`).

Environments are modelled as association lists in insertion order, which is
how JavaScript objects behave: `TEnv` pairs each variable name with an
`EnvValue` that is either a string, the literal `null` (a deletion marker in
overlays) or `undefined`.  Assignment `env[k] = v` updates the first entry
with exactly the key `k` in place, or appends a fresh entry; `delete env[k]`
removes the entries with exactly the key `k`.  The platform flag `isWindows`
and the frontend UI `language` are passed as explicit parameters.  External
collaborators that are not part of this module (`sanitizeCwd`,
`path.isAbsolute`, `path.join`, `escapeNonWindowsPath`, the WSL path
translator and the variable resolver) are taken as function parameters; a
variable resolver returns `none` when resolution fails.  String case mapping
is modelled on the ASCII range.
-/


namespace TerminalEnv

/-- Value of an environment entry: a string, the JavaScript `null`, or
`undefined`. -/
inductive EnvValue where
  | str (s : String)
  | null
  | undef
deriving DecidableEq, Repr

/-- An environment or overlay: an association list in insertion order,
as a JavaScript object. -/
abbrev TEnv := List (String × EnvValue)

/-- Whether a value is a string (the JavaScript typeof test). -/
def EnvValue.isStr : EnvValue → Bool
  | .str _ => true
  | _ => false

/-- JavaScript assignment `env[k] = v`: update the first entry with key `k`
in place, else append. -/
def setKey : TEnv → String → EnvValue → TEnv
  | [], k, v => [(k, v)]
  | p :: rest, k, v => if p.1 == k then (k, v) :: rest else p :: setKey rest k v

/-- JavaScript `delete env[k]`: drop the entries whose key is exactly `k`. -/
def delKey : TEnv → String → TEnv
  | [], _ => []
  | p :: rest, k => if p.1 == k then delKey rest k else p :: delKey rest k

/-- The keys of an environment, in order. -/
def envKeys (e : TEnv) : List String := e.map Prod.fst

/-- ASCII lower-casing, modelling `String.prototype.toLowerCase`. -/
def toLowerStr (s : String) : String := String.mk (s.data.map Char.toLower)

/-- ASCII upper-casing, modelling `String.prototype.toUpperCase`. -/
def toUpperStr (s : String) : String := String.mk (s.data.map Char.toUpper)

/-- Key comparison view: on Windows keys are compared by their lowercase
form, elsewhere verbatim. -/
def keyNorm (isWin : Bool) (s : String) : String := if isWin then toLowerStr s else s

/-- Environment lookup under the platform key comparison: the value of the
first entry whose (normalised) key matches. -/
def lookupCase (isWin : Bool) : TEnv → String → Option EnvValue
  | [], _ => none
  | p :: rest, k =>
    if keyNorm isWin p.1 == keyNorm isWin k then some p.2 else lookupCase isWin rest k

/-- Exact-key lookup (`env[k]` read). -/
def lookupE (e : TEnv) (k : String) : Option EnvValue := lookupCase false e k

/-- The inner loop of `mergeEnvironments` on Windows: the first key of
`parent` whose lowercase form equals the lowercase form of `configKey`,
defaulting to `configKey` itself. -/
def findActualKey : TEnv → String → String
  | [], configKey => configKey
  | p :: rest, configKey =>
    if toLowerStr configKey == toLowerStr p.1 then p.1 else findActualKey rest configKey

/-- Source `_mergeEnvironmentValue`: a string value is assigned, anything
else deletes the key. -/
def _mergeEnvironmentValue (env : TEnv) (key : String) (value : EnvValue) : TEnv :=
  match value with
  | .str s => setKey env key (.str s)
  | _ => delKey env key

/-- One overlay entry of `mergeEnvironments`: compute the actual key
(case-insensitively on Windows), skip `undefined` values, otherwise apply
`_mergeEnvironmentValue`. -/
def mergeStep (isWin : Bool) (env : TEnv) (key : String) (value : EnvValue) : TEnv :=
  let actualKey := if isWin then findActualKey env key else key
  match value with
  | .undef => env
  | v => _mergeEnvironmentValue env actualKey v

/-- Source `mergeEnvironments`: mutate `parent` by the overlay `other`,
entry by entry in insertion order. -/
def mergeEnvironments (isWin : Bool) (parent : TEnv) (other : Option TEnv) : TEnv :=
  match other with
  | none => parent
  | some o => o.foldl (fun env kv => mergeStep isWin env kv.1 kv.2) parent

/-- One entry of `mergeNonNullKeys`: only string values are copied. -/
def nonNullStep (env : TEnv) (key : String) (value : EnvValue) : TEnv :=
  match value with
  | .str s => setKey env key (.str s)
  | _ => env

/-- Source `mergeNonNullKeys`: copy the string-valued entries of `other`
into `env`, always with exact key matching. -/
def mergeNonNullKeys (env : TEnv) (other : Option TEnv) : TEnv :=
  match other with
  | none => env
  | some o => o.foldl (fun env kv => nonNullStep env kv.1 kv.2) env

/-- Source `resolveConfigurationVariables`: every string value is replaced
by the resolver output for it; a failed resolution keeps the original
string; `null` and `undefined` values are untouched. -/
def resolveConfigurationVariables (variableResolver : String → Option String)
    (env : TEnv) : TEnv :=
  env.map fun kv =>
    match kv.2 with
    | .str s =>
      (kv.1, EnvValue.str (match variableResolver s with
        | some r => r
        | none => s))
    | v => (kv.1, v)

/-- The overlay after the optional resolver pass of
`createTerminalEnvironment`. -/
def resolveOpt (variableResolver : Option (String → Option String)) (o : TEnv) : TEnv :=
  match variableResolver with
  | some r => resolveConfigurationVariables r o
  | none => o

/-- Modelled from the spec: the external `sanitizeProcessEnvironment`
collaborator from `vs/base/common/processes` is not part of this module;
the spec describes it as removing the named marker keys from the
environment in place. -/
def sanitizeProcessEnvironment (env : TEnv) (names : List String) : TEnv :=
  env.filter fun kv => !(names.contains kv.1)

/-- JavaScript line terminators, which the regex `.` does not match. -/
def isLineTerm (c : Char) : Bool :=
  c == '\n' || c == '\r' || c == Char.ofNat 0x2028 || c == Char.ofNat 0x2029

/-- Whether `cs` starts with the pattern `.euc` followed by one character
matched by the regex `.`. -/
def eucMatchAt (cs : List Char) : Bool :=
  match cs with
  | '.' :: 'e' :: 'u' :: 'c' :: c :: _ => !(isLineTerm c)
  | _ => false

/-- Whether the regex `\.euc.+` matches somewhere in `cs`. -/
def hasEucPlus : List Char → Bool
  | [] => false
  | c :: rest => eucMatchAt (c :: rest) || hasEucPlus rest

/-- Whether `cs` starts with `pat`. -/
def listStartsWith : List Char → List Char → Bool
  | _, [] => true
  | [], _ :: _ => false
  | c :: cs, d :: ds => c == d && listStartsWith cs ds

/-- Whether `cs` ends with `pat` (a `$`-anchored regex match). -/
def listEndsWith (cs pat : List Char) : Bool :=
  listStartsWith cs.reverse pat.reverse

/-- Whether `pat` occurs as a contiguous substring of `cs`. -/
def listContainsSub : List Char → List Char → Bool
  | [], pat => listStartsWith [] pat
  | c :: rest, pat => listStartsWith (c :: rest) pat || listContainsSub rest pat

/-- The locale detection setting. -/
inductive DetectLocale where
  | auto
  | off
  | on
deriving DecidableEq, Repr

/-- Source `shouldSetLangEnvVariable`: always under mode `on`, never under
`off`, and under `auto` only when `env.LANG` is missing, falsy, or matches
none of the regexes for UTF-8 and EUC locale suffixes. -/
def shouldSetLangEnvVariable (env : TEnv) (detectLocale : DetectLocale) : Bool :=
  match detectLocale with
  | .on => true
  | .auto =>
    match lookupE env "LANG" with
    | some (.str lang) =>
      lang == ""
        || (!(listEndsWith lang.data ".UTF-8".data)
            && !(listEndsWith lang.data ".utf8".data)
            && !(hasEucPlus lang.data))
    | _ => true
  | .off => false

/-- JavaScript `String.prototype.split` with a one-character separator. -/
def splitOnChar (sep : Char) : List Char → List (List Char)
  | [] => [[]]
  | c :: rest =>
    let r := splitOnChar sep rest
    if c == sep then [] :: r
    else
      match r with
      | h :: t => (c :: h) :: t
      | [] => [[c]]

/-- JavaScript `String.prototype.split` with the dash separator. -/
def splitDash (cs : List Char) : List (List Char) := splitOnChar '-' cs

/-- JavaScript `Array.prototype.join` with the underscore separator. -/
def joinParts : List String → String
  | [] => ""
  | [p] => p
  | p :: rest => p ++ "_" ++ joinParts rest

/-- The static language-to-default-region table of `getLangEnvVariable`,
in source order. -/
def languageVariants : List (String × String) :=
  [("af", "ZA"), ("am", "ET"), ("be", "BY"), ("bg", "BG"), ("ca", "ES"),
   ("cs", "CZ"), ("da", "DK"), ("de", "DE"), ("el", "GR"), ("en", "US"),
   ("es", "ES"), ("et", "EE"), ("eu", "ES"), ("fi", "FI"), ("fr", "FR"),
   ("he", "IL"), ("hr", "HR"), ("hu", "HU"), ("hy", "AM"), ("is", "IS"),
   ("it", "IT"), ("ja", "JP"), ("kk", "KZ"), ("ko", "KR"), ("lt", "LT"),
   ("nl", "NL"), ("no", "NO"), ("pl", "PL"), ("pt", "BR"), ("ro", "RO"),
   ("ru", "RU"), ("sk", "SK"), ("sl", "SI"), ("sr", "YU"), ("sv", "SE"),
   ("tr", "TR"), ("uk", "UA"), ("zh", "CN")]

/-- Lookup in the language-variant table (`parts[0] in languageVariants`). -/
def languageVariantFor (lang : String) : Option String :=
  (languageVariants.find? fun p => p.1 == lang).map Prod.snd

/-- The branch of `getLangEnvVariable` on the split parts of the tag: the
`en_US` fallback with no parts, the region guess from the static table for
a bare language, the uppercased region for a multi-part tag. -/
def langFromParts : List String → String
  | [] => "en_US.UTF-8"
  | [lang] =>
    joinParts (match languageVariantFor lang with
      | some region => [lang, region]
      | none => [lang]) ++ ".UTF-8"
  | p0 :: p1 :: rest => joinParts (p0 :: toUpperStr p1 :: rest) ++ ".UTF-8"

/-- Source `getLangEnvVariable`: split the tag on dashes (a falsy tag gives
no parts), fall back to `en_US` with no tag, guess the region for a bare
language from the static table, uppercase the region of a multi-part tag,
join with underscores and append `.UTF-8`. -/
def getLangEnvVariable (locale : Option String) : String :=
  langFromParts
    (match locale with
    | none => []
    | some s => if s == "" then [] else (splitDash s.data).map String.mk)

/-- Source `addTerminalEnvironmentKeys`: set `TERM_PROGRAM`, optionally
`TERM_PROGRAM_VERSION`, optionally `LANG`, and `COLORTERM`. -/
def addTerminalEnvironmentKeys (env : TEnv) (version : Option String)
    (locale : Option String) (detectLocale : DetectLocale) : TEnv :=
  let e1 := setKey env "TERM_PROGRAM" (.str "vscode")
  let e2 :=
    match version with
    | some v => if v == "" then e1 else setKey e1 "TERM_PROGRAM_VERSION" (.str v)
    | none => e1
  let e3 :=
    if shouldSetLangEnvVariable e2 detectLocale then
      setKey e2 "LANG" (.str (getLangEnvVariable locale))
    else e2
  setKey e3 "COLORTERM" (.str "truecolor")

/-- An explicit working directory of a launch config: a plain string or a
URI-like object carrying a filesystem path. -/
inductive CwdSpec where
  | str (s : String)
  | uri (fsPath : String)
deriving DecidableEq, Repr

/-- The fields of `IShellLaunchConfig` this module reads. -/
structure ShellLaunchConfig where
  strictEnv : Bool := false
  env : Option TEnv := none
  cwd : Option CwdSpec := none
  ignoreConfigurationCwd : Bool := false
deriving Repr

/-- The object spread of an optional overlay
(`\x7b ...envFromConfig \x7d` produces an empty object from `undefined`). -/
def orEmpty (o : Option TEnv) : TEnv :=
  match o with
  | some cfg => cfg
  | none => []

/-- Source `createTerminalEnvironment`: strict mode copies only the
launch-config overlay; otherwise the base environment is copied, the config
overlay and launch-config overlay are resolved, the marker variables are
stripped, both overlays are merged case-aware, and the terminal marker keys
are injected. -/
def createTerminalEnvironment (isWin : Bool) (language : Option String)
    (shellLaunchConfig : ShellLaunchConfig) (envFromConfig : Option TEnv)
    (variableResolver : Option (String → Option String)) (version : Option String)
    (detectLocale : DetectLocale) (baseEnv : TEnv) : TEnv :=
  if shellLaunchConfig.strictEnv then
    mergeNonNullKeys [] shellLaunchConfig.env
  else
    let env := mergeNonNullKeys [] (some baseEnv)
    let allowedEnvFromConfig := orEmpty envFromConfig
    let allowedEnvFromConfig := resolveOpt variableResolver allowedEnvFromConfig
    let slcEnv := (shellLaunchConfig.env).map (resolveOpt variableResolver)
    let env := sanitizeProcessEnvironment env ["VSCODE_IPC_HOOK_CLI", "VSCODE_PROXY_URI"]
    let env := mergeEnvironments isWin env (some allowedEnvFromConfig)
    let env := mergeEnvironments isWin env slcEnv
    addTerminalEnvironmentKeys env version language detectLocale

/-- Source `_resolveCwd`: without a resolver the string is returned as is;
with one, a resolution failure yields `undefined`. -/
def _resolveCwd (cwd : String) (variableResolver : Option (String → Option String)) :
    Option String :=
  match variableResolver with
  | some r => r cwd
  | none => some cwd

/-- JavaScript truthiness of an optional string (`undefined` and the empty
string are falsy). -/
def optTruthy : Option String → Bool
  | some s => !(s == "")
  | none => false

/-- JavaScript `a || b` for an optional string `a`. -/
def strOr (a : Option String) (b : String) : String :=
  match a with
  | some s => if s == "" then b else s
  | none => b

/-- JavaScript truthiness of `shell.cwd` (a URI object is always truthy, a
string only when non-empty). -/
def cwdTruthy : Option CwdSpec → Bool
  | some (.uri _) => true
  | some (.str s) => !(s == "")
  | none => false

/-- The filesystem path of `shell.cwd`
(a URI object contributes its filesystem path, a plain string itself). -/
def cwdLiteral : Option CwdSpec → String
  | some (.uri p) => p
  | some (.str s) => s
  | none => ""

/-- Source `getCwd`: an explicit launch-config cwd is resolved and
sanitized directly; otherwise the configured cwd is resolved and, when
absolute or joinable onto the workspace root, used; otherwise the workspace
root, the user home or the empty string.  The external primitives
`sanitizeCwd`, `path.isAbsolute` and `path.join` are parameters. -/
def getCwd (shell : ShellLaunchConfig) (userHome : Option String)
    (variableResolver : Option (String → Option String)) (root : Option String)
    (customCwd : Option String) (sanitizeCwd : String → String)
    (isAbsolute : String → Bool) (joinPath : String → String → String) : String :=
  if cwdTruthy shell.cwd then
    let unresolved := cwdLiteral shell.cwd
    let resolved := _resolveCwd unresolved variableResolver
    sanitizeCwd (strOr resolved unresolved)
  else
    let cwd : Option String :=
      if !shell.ignoreConfigurationCwd && optTruthy customCwd then
        let customCwd1 :=
          match variableResolver with
          | some _ => _resolveCwd (match customCwd with | some c => c | none => "") variableResolver
          | none => customCwd
        match customCwd1 with
        | some c =>
          if c == "" then none
          else if isAbsolute c then some c
          else
            match root with
            | some r => some (joinPath r c)
            | none => none
        | none => none
      else none
    let cwdFinal :=
      match cwd with
      | some c =>
        if c == "" then
          match root with
          | some r => r
          | none => strOr userHome ""
        else c
      | none =>
        match root with
        | some r => r
        | none => strOr userHome ""
    sanitizeCwd cwdFinal

/-- The operating system of the terminal backend. -/
inductive OperatingSystem where
  | windows
  | macintosh
  | linux
deriving DecidableEq, Repr

/-- The Windows shell classification from the terminal platform module. -/
inductive WindowsShellType where
  | commandPrompt
  | powerShell
  | wsl
  | gitBash
deriving DecidableEq, Repr

/-- A path argument: a plain string or a URI-like object carrying a
filesystem path. -/
inductive PathResource where
  | str (s : String)
  | uri (fsPath : String)
deriving DecidableEq, Repr

/-- Character-wise global replacement, modelling `replace` with a
one-character global regex. -/
def replaceChar (s : String) (a b : Char) : String :=
  String.mk (s.data.map fun c => if c == a then b else c)

/-- The single-quote character. -/
def squote : Char := Char.ofNat 39

/-- Double every single quote, modelling the replacement in the PowerShell
branch of `preparePathForShell`. -/
def doubleSquotes (s : String) : String :=
  String.mk ((s.data.map fun c => if c == squote then [squote, squote] else [c]).flatten)

/-- Whether the string contains the character. -/
def strContainsChar (s : String) (c : Char) : Bool := s.data.contains c

/-- Whether `sub` occurs in `s`. -/
def strContainsSub (s sub : String) : Bool := listContainsSub s.data sub.data

/-- The last element of a list of char lists, defaulting to the empty
segment. -/
def lastSegment (l : List (List Char)) : List Char :=
  l.foldl (fun _ x => x) []

/-- Modelled from the spec: the external `path.basename` collaborator from
`vs/base/common/path`, called with the extension argument `.exe`, is not
part of this module; it yields the last path segment of the executable
(separators `/` and `\x5c`) with a trailing `.exe` extension stripped,
unless the segment is exactly `.exe`. -/
def pathBasename (p : String) : String :=
  let comps := (splitOnChar '/' p.data).foldr (fun seg acc => splitOnChar '\\' seg ++ acc) []
  let base := lastSegment comps
  if String.mk base == ".exe" then String.mk base
  else if listEndsWith base ".exe".data then String.mk (base.take (base.length - 4))
  else String.mk base

/-- JavaScript `x || originalPath` over an optional WSL translation
result. -/
def wslOr (backend : Option (String → Option String)) (originalPath : String) : String :=
  match backend with
  | some getWslPath =>
    match getWslPath originalPath with
    | some r => if r == "" then originalPath else r
    | none => originalPath
  | none => originalPath

/-- Source `preparePathForShell`: normalise the resource to a path string
flipping separators across OS conventions, return it unquoted without an
executable, quote for PowerShell when the path has a space, a single quote
or parentheses, translate or double-quote on Windows depending on the shell
type or a sniff of the executable name, and POSIX-escape elsewhere.  The
external `escapeNonWindowsPath` and the WSL translator are parameters. -/
def preparePathForShell (resource : PathResource) (executable : Option String)
    (title : String) (shellType : Option WindowsShellType)
    (backend : Option (String → Option String)) (os : Option OperatingSystem)
    (isWindowsFrontend : Bool) (escapeNonWindowsPath : String → String) : String :=
  let originalPath :=
    match resource with
    | .str s => s
    | .uri p =>
      if isWindowsFrontend && !(os == some .windows) then replaceChar p '\\' '/'
      else if !isWindowsFrontend && os == some .windows then replaceChar p '/' '\\'
      else p
  if !(optTruthy executable) then originalPath
  else
    let exe := match executable with | some e => e | none => ""
    let hasSpace := strContainsChar originalPath ' '
    let hasParens := strContainsChar originalPath '(' || strContainsChar originalPath ')'
    let base := pathBasename exe
    let isPowerShell :=
      base == "pwsh" || title == "pwsh" || base == "powershell" || title == "powershell"
    if isPowerShell && (hasSpace || strContainsChar originalPath squote) then
      "& " ++ String.singleton squote ++ doubleSquotes originalPath ++ String.singleton squote
    else if hasParens && isPowerShell then
      "& " ++ String.singleton squote ++ originalPath ++ String.singleton squote
    else if os == some .windows then
      match shellType with
      | some st =>
        match st with
        | .gitBash => escapeNonWindowsPath (replaceChar originalPath '\\' '/')
        | .wsl => wslOr backend originalPath
        | _ => if hasSpace then "\"" ++ originalPath ++ "\"" else originalPath
      | none =>
        let lowerExecutable := toLowerStr exe
        if strContainsSub lowerExecutable "wsl"
            || (strContainsSub lowerExecutable "bash.exe"
                && !(strContainsSub (toLowerStr lowerExecutable) "git")) then
          wslOr backend originalPath
        else if hasSpace then "\"" ++ originalPath ++ "\""
        else originalPath
    else escapeNonWindowsPath originalPath



/-- Keys of the environment, normalised for the platform, are pairwise
distinct.  JavaScript objects guarantee this exactly on the case-sensitive
platforms; on Windows it additionally rules out two keys differing only in
case. -/
def envOk (w : Bool) (e : TEnv) : Prop := ((envKeys e).map (keyNorm w)).Nodup

instance (w : Bool) (e : TEnv) : Decidable (envOk w e) := by
  unfold envOk; infer_instance

theorem keyNorm_true (s : String) : keyNorm true s = toLowerStr s := rfl

theorem keyNorm_false (s : String) : keyNorm false s = s := rfl

theorem lookupCase_cons_pos {w : Bool} {p : String × EnvValue} {rest : TEnv} {k : String}
    (h : keyNorm w p.1 = keyNorm w k) : lookupCase w (p :: rest) k = some p.2 := by
  simp [lookupCase, h]

theorem lookupCase_cons_neg {w : Bool} {p : String × EnvValue} {rest : TEnv} {k : String}
    (h : keyNorm w p.1 ≠ keyNorm w k) : lookupCase w (p :: rest) k = lookupCase w rest k := by
  simp [lookupCase, h]

theorem setKey_cons_pos {p : String × EnvValue} {rest : TEnv} {k : String} {v : EnvValue}
    (h : p.1 = k) : setKey (p :: rest) k v = (k, v) :: rest := by
  simp [setKey, h]

theorem setKey_cons_neg {p : String × EnvValue} {rest : TEnv} {k : String} {v : EnvValue}
    (h : p.1 ≠ k) : setKey (p :: rest) k v = p :: setKey rest k v := by
  simp [setKey, h]

theorem delKey_cons_pos {p : String × EnvValue} {rest : TEnv} {k : String}
    (h : p.1 = k) : delKey (p :: rest) k = delKey rest k := by
  simp [delKey, h]

theorem delKey_cons_neg {p : String × EnvValue} {rest : TEnv} {k : String}
    (h : p.1 ≠ k) : delKey (p :: rest) k = p :: delKey rest k := by
  simp [delKey, h]

theorem findActualKey_cons_pos {p : String × EnvValue} {rest : TEnv} {k : String}
    (h : toLowerStr k = toLowerStr p.1) : findActualKey (p :: rest) k = p.1 := by
  simp [findActualKey, h]

theorem findActualKey_cons_neg {p : String × EnvValue} {rest : TEnv} {k : String}
    (h : toLowerStr k ≠ toLowerStr p.1) : findActualKey (p :: rest) k = findActualKey rest k := by
  simp [findActualKey, h]

theorem lookupCase_eq_none (w : Bool) (e : TEnv) (k : String)
    (h : ∀ q ∈ e, keyNorm w q.1 ≠ keyNorm w k) : lookupCase w e k = none := by
  induction e with
  | nil => rfl
  | cons p rest ih =>
    rw [lookupCase_cons_neg (h p (List.mem_cons_self _ _))]
    exact ih fun q hq => h q (List.mem_cons_of_mem _ hq)

theorem setKey_lookup_self_exact (e : TEnv) (k : String) (v : EnvValue) :
    lookupCase false (setKey e k v) k = some v := by
  induction e with
  | nil => simp [setKey, lookupCase, keyNorm]
  | cons p rest ih =>
    by_cases h : p.1 = k
    · rw [setKey_cons_pos h, lookupCase_cons_pos (by simp [keyNorm])]
    · rw [setKey_cons_neg h, lookupCase_cons_neg (by simpa [keyNorm] using h)]
      exact ih

theorem setKey_lookup_ne (w : Bool) (e : TEnv) (a k' : String) (v : EnvValue)
    (h : keyNorm w a ≠ keyNorm w k') :
    lookupCase w (setKey e a v) k' = lookupCase w e k' := by
  induction e with
  | nil => simp [setKey, lookupCase, h]
  | cons p rest ih =>
    by_cases hp : p.1 = a
    · rw [setKey_cons_pos hp, lookupCase_cons_neg (by simpa using h),
        lookupCase_cons_neg (by rw [hp]; exact h)]
    · rw [setKey_cons_neg hp]
      by_cases hk : keyNorm w p.1 = keyNorm w k'
      · rw [lookupCase_cons_pos hk, lookupCase_cons_pos hk]
      · rw [lookupCase_cons_neg hk, lookupCase_cons_neg hk]
        exact ih

theorem findActualKey_toLower (e : TEnv) (k : String) :
    toLowerStr (findActualKey e k) = toLowerStr k := by
  induction e with
  | nil => rfl
  | cons p rest ih =>
    by_cases h : toLowerStr k = toLowerStr p.1
    · rw [findActualKey_cons_pos h, h]
    · rw [findActualKey_cons_neg h]
      exact ih

theorem setKey_win_self (e : TEnv) (k : String) (v : EnvValue) :
    lookupCase true (setKey e (findActualKey e k) v) k = some v := by
  induction e with
  | nil => simp [findActualKey, setKey, lookupCase, keyNorm]
  | cons p rest ih =>
    by_cases h : toLowerStr k = toLowerStr p.1
    · rw [findActualKey_cons_pos h, setKey_cons_pos rfl,
        lookupCase_cons_pos (by simpa [keyNorm] using h.symm)]
    · have hpa : p.1 ≠ findActualKey rest k := by
        intro he
        exact h (by rw [he, findActualKey_toLower rest k])
      rw [findActualKey_cons_neg h, setKey_cons_neg hpa,
        lookupCase_cons_neg (by simpa [keyNorm] using fun he => h he.symm)]
      exact ih

theorem delKey_lookup_self_exact (e : TEnv) (k : String) :
    lookupCase false (delKey e k) k = none := by
  induction e with
  | nil => rfl
  | cons p rest ih =>
    by_cases h : p.1 = k
    · rw [delKey_cons_pos h]; exact ih
    · rw [delKey_cons_neg h, lookupCase_cons_neg (by simpa [keyNorm] using h)]
      exact ih

theorem delKey_lookup_ne (w : Bool) (e : TEnv) (a k' : String)
    (h : keyNorm w a ≠ keyNorm w k') :
    lookupCase w (delKey e a) k' = lookupCase w e k' := by
  induction e with
  | nil => rfl
  | cons p rest ih =>
    by_cases hp : p.1 = a
    · rw [delKey_cons_pos hp, lookupCase_cons_neg (by rw [hp]; exact h)]
      exact ih
    · rw [delKey_cons_neg hp]
      by_cases hk : keyNorm w p.1 = keyNorm w k'
      · rw [lookupCase_cons_pos hk, lookupCase_cons_pos hk]
      · rw [lookupCase_cons_neg hk, lookupCase_cons_neg hk]
        exact ih

theorem delKey_sublist (e : TEnv) (k : String) : List.Sublist (delKey e k) e := by
  induction e with
  | nil => simp [delKey]
  | cons p rest ih =>
    by_cases h : p.1 = k
    · rw [delKey_cons_pos h]
      exact ih.cons _
    · rw [delKey_cons_neg h]
      exact ih.cons₂ _

theorem delKey_win_self (e : TEnv) (k : String) (hok : envOk true e) :
    lookupCase true (delKey e (findActualKey e k)) k = none := by
  induction e with
  | nil => rfl
  | cons p rest ih =>
    have hok' : envOk true rest := (List.nodup_cons.mp hok).2
    by_cases h : toLowerStr k = toLowerStr p.1
    · rw [findActualKey_cons_pos h, delKey_cons_pos rfl]
      apply lookupCase_eq_none
      intro q hq
      have hqrest : q ∈ rest := (delKey_sublist rest p.1).subset hq
      have hnotin := (List.nodup_cons.mp hok).1
      intro hcontra
      apply hnotin
      rw [List.mem_map]
      refine ⟨q.1, ?_, ?_⟩
      · simpa [envKeys] using List.mem_map_of_mem Prod.fst hqrest
      · rw [keyNorm_true, keyNorm_true] at hcontra ⊢
        rw [hcontra, ← h]
    · have hpa : p.1 ≠ findActualKey rest k := by
        intro he
        exact h (by rw [he, findActualKey_toLower rest k])
      rw [findActualKey_cons_neg h, delKey_cons_neg hpa,
        lookupCase_cons_neg (by simpa [keyNorm] using fun he => h he.symm)]
      exact ih hok'



theorem keyNorm_ne_of_lower_ne {a b : String} (w : Bool) (h : toLowerStr a ≠ toLowerStr b) :
    keyNorm w a ≠ keyNorm w b := by
  cases w
  · rw [keyNorm_false, keyNorm_false]
    intro he
    subst he
    exact h rfl
  · rw [keyNorm_true, keyNorm_true]
    exact h

theorem keyNorm_actual (w : Bool) (e : TEnv) (k : String) :
    keyNorm w (if w then findActualKey e k else k) = keyNorm w k := by
  cases w
  · simp
  · simp [keyNorm_true, findActualKey_toLower]

theorem mergeStep_undef (w : Bool) (e : TEnv) (k : String) : mergeStep w e k .undef = e := rfl

theorem mergeStep_str (w : Bool) (e : TEnv) (k : String) (s : String) :
    mergeStep w e k (.str s) = setKey e (if w then findActualKey e k else k) (.str s) := rfl

theorem mergeStep_null (w : Bool) (e : TEnv) (k : String) :
    mergeStep w e k .null = delKey e (if w then findActualKey e k else k) := rfl

theorem mergeStep_lookup_ne (w : Bool) (e : TEnv) (k0 : String) (v0 : EnvValue) (k : String)
    (h : keyNorm w k0 ≠ keyNorm w k) :
    lookupCase w (mergeStep w e k0 v0) k = lookupCase w e k := by
  cases v0 with
  | undef => rfl
  | str s =>
    rw [mergeStep_str]
    exact setKey_lookup_ne w e _ k _ (by rw [keyNorm_actual]; exact h)
  | null =>
    rw [mergeStep_null]
    exact delKey_lookup_ne w e _ k (by rw [keyNorm_actual]; exact h)

theorem mergeStep_lookup_str_self (w : Bool) (e : TEnv) (k s : String) :
    lookupCase w (mergeStep w e k (.str s)) k = some (.str s) := by
  cases w
  · rw [mergeStep_str]
    simpa using setKey_lookup_self_exact e k (.str s)
  · rw [mergeStep_str]
    simpa using setKey_win_self e k (.str s)

theorem mergeStep_lookup_null_self (w : Bool) (e : TEnv) (k : String)
    (hok : w = true → envOk true e) :
    lookupCase w (mergeStep w e k .null) k = none := by
  cases w
  · rw [mergeStep_null]
    simpa using delKey_lookup_self_exact e k
  · rw [mergeStep_null]
    simpa using delKey_win_self e k (hok rfl)

theorem envKeys_cons (p : String × EnvValue) (rest : TEnv) :
    envKeys (p :: rest) = p.1 :: envKeys rest := rfl

theorem envKeys_setKey_mem (e : TEnv) (k : String) (v : EnvValue) (h : k ∈ envKeys e) :
    envKeys (setKey e k v) = envKeys e := by
  induction e with
  | nil => simp [envKeys] at h
  | cons p rest ih =>
    by_cases hp : p.1 = k
    · rw [setKey_cons_pos hp, envKeys_cons, envKeys_cons, hp]
    · have hr : k ∈ envKeys rest := by
        rcases (by simpa [envKeys_cons] using h) with h1 | h1
        · exact absurd h1.symm hp
        · exact h1
      rw [setKey_cons_neg hp, envKeys_cons, envKeys_cons, ih hr]

theorem envKeys_setKey_not_mem (e : TEnv) (k : String) (v : EnvValue) (h : k ∉ envKeys e) :
    envKeys (setKey e k v) = envKeys e ++ [k] := by
  induction e with
  | nil => rfl
  | cons p rest ih =>
    have hp : p.1 ≠ k := fun he => h (by simp [envKeys_cons, he])
    have hr : k ∉ envKeys rest := fun hm => h (by simp [envKeys_cons, hm])
    rw [setKey_cons_neg hp, envKeys_cons, envKeys_cons, ih hr, List.cons_append]

theorem findActualKey_spec (e : TEnv) (k : String) :
    findActualKey e k ∈ envKeys e ∨
      (findActualKey e k = k ∧ ∀ q ∈ e, toLowerStr q.1 ≠ toLowerStr k) := by
  induction e with
  | nil => exact Or.inr ⟨rfl, by simp⟩
  | cons p rest ih =>
    by_cases h : toLowerStr k = toLowerStr p.1
    · rw [findActualKey_cons_pos h]
      exact Or.inl (by simp [envKeys_cons])
    · rw [findActualKey_cons_neg h]
      rcases ih with h1 | ⟨h1, h2⟩
      · exact Or.inl (by simp [envKeys_cons, h1])
      · refine Or.inr ⟨h1, ?_⟩
        intro q hq
        rcases List.mem_cons.mp hq with rfl | hq'
        · exact fun he => h he.symm
        · exact h2 q hq'

theorem envOk_sublist {w : Bool} {e' e : TEnv} (h : List.Sublist e' e) (hok : envOk w e) :
    envOk w e' := by
  unfold envOk at hok ⊢
  exact List.Nodup.sublist ((h.map Prod.fst).map (keyNorm w)) hok

theorem envOk_mergeStep_true (e : TEnv) (k : String) (v : EnvValue) (hok : envOk true e) :
    envOk true (mergeStep true e k v) := by
  cases v with
  | undef => exact hok
  | str s =>
    rw [mergeStep_str]
    simp only [if_true]
    rcases findActualKey_spec e k with hmem | ⟨heq, hall⟩
    · unfold envOk
      rw [envKeys_setKey_mem e _ _ hmem]
      exact hok
    · have hnm : findActualKey e k ∉ envKeys e := by
        rw [heq]
        intro hmem
        rcases List.mem_map.mp hmem with ⟨q, hq, hq1⟩
        exact hall q hq (by rw [hq1])
      unfold envOk
      rw [envKeys_setKey_not_mem e _ _ hnm, List.map_append]
      rw [List.nodup_append]
      refine ⟨hok, by simp, ?_⟩
      intro x hx
      rcases List.mem_map.mp hx with ⟨k', hk', rfl⟩
      rcases List.mem_map.mp hk' with ⟨q, hq, rfl⟩
      simp only [List.map_cons, List.map_nil, List.mem_cons, List.not_mem_nil, or_false]
      rw [heq, keyNorm_true, keyNorm_true]
      exact fun he => hall q hq he
  | null =>
    rw [mergeStep_null]
    exact envOk_sublist (delKey_sublist e _) hok

theorem mergeEnvironments_nil (w : Bool) (e : TEnv) :
    mergeEnvironments w e (some []) = e := rfl

theorem mergeEnvironments_cons (w : Bool) (e : TEnv) (k : String) (v : EnvValue) (o : TEnv) :
    mergeEnvironments w e (some ((k, v) :: o))
      = mergeEnvironments w (mergeStep w e k v) (some o) := rfl

theorem envOk_cons {w : Bool} {kv : String × EnvValue} {rest : TEnv}
    (h : envOk w (kv :: rest)) :
    keyNorm w kv.1 ∉ (envKeys rest).map (keyNorm w) ∧ envOk w rest := by
  have hrw : (envKeys (kv :: rest)).map (keyNorm w)
      = keyNorm w kv.1 :: (envKeys rest).map (keyNorm w) := by
    simp [envKeys_cons]
  rw [envOk, hrw, List.nodup_cons] at h
  exact h

theorem envOk_merge_true (o : TEnv) : ∀ e : TEnv, envOk true e →
    envOk true (mergeEnvironments true e (some o)) := by
  induction o with
  | nil => exact fun e h => h
  | cons kv rest ih =>
    intro e h
    rw [show kv = (kv.1, kv.2) from rfl, mergeEnvironments_cons]
    exact ih _ (envOk_mergeStep_true e kv.1 kv.2 h)

theorem merge_lookup_preserve (w : Bool) (o : TEnv) (k : String) : ∀ e : TEnv,
    (∀ kv ∈ o, keyNorm w kv.1 ≠ keyNorm w k) →
    lookupCase w (mergeEnvironments w e (some o)) k = lookupCase w e k := by
  induction o with
  | nil => exact fun e _ => rfl
  | cons kv rest ih =>
    intro e h
    rw [show kv = (kv.1, kv.2) from rfl, mergeEnvironments_cons]
    rw [ih _ fun q hq => h q (List.mem_cons_of_mem _ hq)]
    exact mergeStep_lookup_ne w e kv.1 kv.2 k (h kv (List.mem_cons_self _ _))

theorem merge_lookup_str (w : Bool) (o : TEnv) (k s : String)
    (hok : envOk w o) (hmem : (k, EnvValue.str s) ∈ o) : ∀ e : TEnv,
    lookupCase w (mergeEnvironments w e (some o)) k = some (EnvValue.str s) := by
  induction o with
  | nil => simp at hmem
  | cons kv rest ih =>
    intro e
    rw [show kv = (kv.1, kv.2) from rfl, mergeEnvironments_cons]
    rcases List.mem_cons.mp hmem with heq | hmem2
    · have hk1 : kv.1 = k := by rw [← heq]
      have hv : kv.2 = EnvValue.str s := by rw [← heq]
      have hhead := (envOk_cons hok).1
      rw [merge_lookup_preserve w rest k _ ?hdisj]
      · rw [hk1, hv]
        exact mergeStep_lookup_str_self w e k s
      case hdisj =>
        intro q hq hcontra
        apply hhead
        rw [List.mem_map]
        exact ⟨q.1, List.mem_map_of_mem Prod.fst hq, by rw [hcontra, hk1]⟩
    · exact ih (envOk_cons hok).2 hmem2 _

theorem merge_lookup_null (w : Bool) (o : TEnv) (k : String)
    (hok : envOk w o) (hmem : (k, EnvValue.null) ∈ o) : ∀ e : TEnv,
    (w = true → envOk true e) →
    lookupCase w (mergeEnvironments w e (some o)) k = none := by
  induction o with
  | nil => simp at hmem
  | cons kv rest ih =>
    intro e he
    rw [show kv = (kv.1, kv.2) from rfl, mergeEnvironments_cons]
    rcases List.mem_cons.mp hmem with heq | hmem2
    · have hk1 : kv.1 = k := by rw [← heq]
      have hv : kv.2 = EnvValue.null := by rw [← heq]
      have hhead := (envOk_cons hok).1
      rw [merge_lookup_preserve w rest k _ ?hdisj2]
      · rw [hk1, hv]
        exact mergeStep_lookup_null_self w e k he
      case hdisj2 =>
        intro q hq hcontra
        apply hhead
        rw [List.mem_map]
        exact ⟨q.1, List.mem_map_of_mem Prod.fst hq, by rw [hcontra, hk1]⟩
    · refine ih (envOk_cons hok).2 hmem2 _ ?_
      intro hw
      subst hw
      exact envOk_mergeStep_true e kv.1 kv.2 (he rfl)


theorem setKey_append (e : TEnv) (k : String) (v : EnvValue) (h : k ∉ envKeys e) :
    setKey e k v = e ++ [(k, v)] := by
  induction e with
  | nil => rfl
  | cons p rest ih =>
    have hp : p.1 ≠ k := fun he => h (by simp [envKeys_cons, he])
    have hr : k ∉ envKeys rest := fun hm => h (by simp [envKeys_cons, hm])
    rw [setKey_cons_neg hp, ih hr, List.cons_append]

theorem mergeNonNullKeys_cons (e : TEnv) (k : String) (v : EnvValue) (o : TEnv) :
    mergeNonNullKeys e (some ((k, v) :: o)) = mergeNonNullKeys (nonNullStep e k v) (some o) := rfl

theorem nonNullStep_str (e : TEnv) (k s : String) :
    nonNullStep e k (.str s) = setKey e k (.str s) := rfl

theorem nonNullStep_null (e : TEnv) (k : String) : nonNullStep e k .null = e := rfl

theorem nonNullStep_undef (e : TEnv) (k : String) : nonNullStep e k .undef = e := rfl

theorem mergeNonNullKeys_copy (o : TEnv) : ∀ e : TEnv,
    (∀ k ∈ envKeys o, k ∉ envKeys e) → (envKeys o).Nodup →
    mergeNonNullKeys e (some o) = e ++ o.filter (fun kv => kv.2.isStr) := by
  induction o with
  | nil =>
    intro e _ _
    simp [mergeNonNullKeys]
  | cons kv rest ih =>
    intro e hdisj hnodup
    rw [show kv = (kv.1, kv.2) from rfl, mergeNonNullKeys_cons]
    have hd1 : kv.1 ∉ envKeys e := hdisj kv.1 (by simp [envKeys_cons])
    have hnodup2 : (envKeys rest).Nodup := by
      rw [envKeys_cons, List.nodup_cons] at hnodup
      exact hnodup.2
    have hknotin : kv.1 ∉ envKeys rest := by
      rw [envKeys_cons, List.nodup_cons] at hnodup
      exact hnodup.1
    have hdisj2 : ∀ k ∈ envKeys rest, k ∉ envKeys e :=
      fun k hk => hdisj k (by simp [envKeys_cons, hk])
    cases hv : kv.2 with
    | str s =>
      have hd3 : ∀ k ∈ envKeys rest, k ∉ envKeys (e ++ [(kv.1, EnvValue.str s)]) := by
        intro k hk
        rw [show envKeys (e ++ [(kv.1, EnvValue.str s)]) = envKeys e ++ [kv.1] by
          simp [envKeys]]
        rw [List.mem_append]
        rintro (hmem | hmem)
        · exact hdisj2 k hk hmem
        · have hkk : k = kv.1 := by simpa using hmem
          exact hknotin (hkk ▸ hk)
      rw [nonNullStep_str, setKey_append e kv.1 _ hd1, ih _ hd3 hnodup2,
        List.filter_cons_of_pos (by simp [EnvValue.isStr]), List.append_assoc]
      rfl
    | null =>
      rw [nonNullStep_null, ih e hdisj2 hnodup2,
        List.filter_cons_of_neg (by simp [EnvValue.isStr])]
    | undef =>
      rw [nonNullStep_undef, ih e hdisj2 hnodup2,
        List.filter_cons_of_neg (by simp [EnvValue.isStr])]

/-- No entry of the environment carries a `null` or `undefined` value. -/
def allStr (e : TEnv) : Prop := ∀ kv ∈ e, kv.2.isStr = true

instance (e : TEnv) : Decidable (allStr e) := by
  unfold allStr; infer_instance

theorem mem_setKey {e : TEnv} {k : String} {v : EnvValue} {q : String × EnvValue}
    (h : q ∈ setKey e k v) : q ∈ e ∨ q = (k, v) := by
  induction e with
  | nil => simpa [setKey] using h
  | cons p rest ih =>
    by_cases hp : p.1 = k
    · rw [setKey_cons_pos hp] at h
      rcases List.mem_cons.mp h with h1 | h1
      · exact Or.inr h1
      · exact Or.inl (List.mem_cons_of_mem _ h1)
    · rw [setKey_cons_neg hp] at h
      rcases List.mem_cons.mp h with h1 | h1
      · exact Or.inl (h1 ▸ List.mem_cons_self _ _)
      · rcases ih h1 with h2 | h2
        · exact Or.inl (List.mem_cons_of_mem _ h2)
        · exact Or.inr h2

theorem allStr_setKey (e : TEnv) (k s : String) (h : allStr e) :
    allStr (setKey e k (.str s)) := by
  intro q hq
  rcases mem_setKey hq with h1 | h1
  · exact h q h1
  · rw [h1]
    rfl

theorem allStr_delKey (e : TEnv) (k : String) (h : allStr e) : allStr (delKey e k) :=
  fun q hq => h q ((delKey_sublist e k).subset hq)

theorem allStr_mergeStep (w : Bool) (e : TEnv) (k : String) (v : EnvValue) (h : allStr e) :
    allStr (mergeStep w e k v) := by
  cases v with
  | undef => exact h
  | str s => rw [mergeStep_str]; exact allStr_setKey _ _ _ h
  | null => rw [mergeStep_null]; exact allStr_delKey _ _ h

theorem allStr_merge (w : Bool) (o : TEnv) : ∀ e : TEnv, allStr e →
    allStr (mergeEnvironments w e (some o)) := by
  induction o with
  | nil => exact fun e h => h
  | cons kv rest ih =>
    intro e h
    rw [show kv = (kv.1, kv.2) from rfl, mergeEnvironments_cons]
    exact ih _ (allStr_mergeStep w e kv.1 kv.2 h)

theorem allStr_merge_opt (w : Bool) (o : Option TEnv) (e : TEnv) (h : allStr e) :
    allStr (mergeEnvironments w e o) := by
  cases o with
  | none => exact h
  | some o => exact allStr_merge w o e h

theorem allStr_nonNullStep (e : TEnv) (k : String) (v : EnvValue) (h : allStr e) :
    allStr (nonNullStep e k v) := by
  cases v with
  | str s => rw [nonNullStep_str]; exact allStr_setKey _ _ _ h
  | null => exact h
  | undef => exact h

theorem allStr_mergeNonNull (o : TEnv) : ∀ e : TEnv, allStr e →
    allStr (mergeNonNullKeys e (some o)) := by
  induction o with
  | nil => exact fun e h => h
  | cons kv rest ih =>
    intro e h
    rw [show kv = (kv.1, kv.2) from rfl, mergeNonNullKeys_cons]
    exact ih _ (allStr_nonNullStep e kv.1 kv.2 h)

theorem allStr_mergeNonNull_opt (o : Option TEnv) (e : TEnv) (h : allStr e) :
    allStr (mergeNonNullKeys e o) := by
  cases o with
  | none => exact h
  | some o => exact allStr_mergeNonNull o e h

theorem allStr_nil : allStr [] := by
  intro q hq
  simp at hq

theorem allStr_filter (e : TEnv) (p : String × EnvValue → Bool) (h : allStr e) :
    allStr (e.filter p) := fun q hq => h q (List.mem_of_mem_filter hq)

theorem allStr_sanitize (e : TEnv) (names : List String) (h : allStr e) :
    allStr (sanitizeProcessEnvironment e names) := allStr_filter e _ h

theorem allStr_addKeys (e : TEnv) (version locale : Option String) (mode : DetectLocale)
    (h : allStr e) : allStr (addTerminalEnvironmentKeys e version locale mode) := by
  unfold addTerminalEnvironmentKeys
  have h1 := allStr_setKey e "TERM_PROGRAM" "vscode" h
  have h2 : allStr (match version with
      | some v => if v == "" then setKey e "TERM_PROGRAM" (.str "vscode")
          else setKey (setKey e "TERM_PROGRAM" (.str "vscode")) "TERM_PROGRAM_VERSION" (.str v)
      | none => setKey e "TERM_PROGRAM" (.str "vscode")) := by
    cases version with
    | none => exact h1
    | some v =>
      dsimp only
      by_cases hv : (v == "") = true
      · rw [if_pos hv]
        exact h1
      · rw [if_neg hv]
        exact allStr_setKey _ _ _ h1
  apply allStr_setKey
  split
  · apply allStr_setKey
    exact h2
  · exact h2

theorem addKeys_lookup_preserve (w : Bool) (e : TEnv) (version locale : Option String)
    (mode : DetectLocale) (k : String)
    (h : ∀ m ∈ (["TERM_PROGRAM", "TERM_PROGRAM_VERSION", "LANG", "COLORTERM"] : List String),
      toLowerStr k ≠ toLowerStr m) :
    lookupCase w (addTerminalEnvironmentKeys e version locale mode) k = lookupCase w e k := by
  have h1 : keyNorm w "TERM_PROGRAM" ≠ keyNorm w k :=
    keyNorm_ne_of_lower_ne w fun he => h "TERM_PROGRAM" (by simp) he.symm
  have h2 : keyNorm w "TERM_PROGRAM_VERSION" ≠ keyNorm w k :=
    keyNorm_ne_of_lower_ne w fun he => h "TERM_PROGRAM_VERSION" (by simp) he.symm
  have h3 : keyNorm w "LANG" ≠ keyNorm w k :=
    keyNorm_ne_of_lower_ne w fun he => h "LANG" (by simp) he.symm
  have h4 : keyNorm w "COLORTERM" ≠ keyNorm w k :=
    keyNorm_ne_of_lower_ne w fun he => h "COLORTERM" (by simp) he.symm
  unfold addTerminalEnvironmentKeys
  rw [setKey_lookup_ne w _ _ _ _ h4]
  have hbase : lookupCase w (match version with
      | some v => if v == "" then setKey e "TERM_PROGRAM" (.str "vscode")
          else setKey (setKey e "TERM_PROGRAM" (.str "vscode")) "TERM_PROGRAM_VERSION" (.str v)
      | none => setKey e "TERM_PROGRAM" (.str "vscode")) k = lookupCase w e k := by
    cases version with
    | none => exact setKey_lookup_ne w _ _ _ _ h1
    | some v =>
      dsimp only
      by_cases hv : (v == "") = true
      · rw [if_pos hv]
        exact setKey_lookup_ne w _ _ _ _ h1
      · rw [if_neg hv]
        rw [setKey_lookup_ne w _ _ _ _ h2]
        exact setKey_lookup_ne w _ _ _ _ h1
  split
  · rw [setKey_lookup_ne w _ _ _ _ h3]
    exact hbase
  · exact hbase

theorem sanitize_sublist (e : TEnv) (names : List String) :
    List.Sublist (sanitizeProcessEnvironment e names) e := List.filter_sublist e

theorem sanitize_lookup_none (w : Bool) (e : TEnv) (names : List String) (k : String)
    (hk : k ∈ names)
    (hcase : ∀ q ∈ e, keyNorm w q.1 = keyNorm w k → q.1 = k) :
    lookupCase w (sanitizeProcessEnvironment e names) k = none := by
  apply lookupCase_eq_none
  intro q hq
  have hmem : q ∈ e ∧ names.contains q.1 = false := by
    have := List.mem_filter.mp hq
    refine ⟨this.1, ?_⟩
    simpa using this.2
  intro hcontra
  have hq1 : q.1 = k := hcase q hmem.1 hcontra
  rw [hq1] at hmem
  have hcont : names.contains k = true := List.elem_eq_true_of_mem hk
  rw [hcont] at hmem
  exact Bool.noConfusion hmem.2

theorem envKeys_resolve (r : String → Option String) (o : TEnv) :
    envKeys (resolveConfigurationVariables r o) = envKeys o := by
  induction o with
  | nil => rfl
  | cons kv rest ih =>
    cases hv : kv.2 <;>
      simp [resolveConfigurationVariables, envKeys, hv] <;>
      simpa [resolveConfigurationVariables, envKeys] using ih

theorem envOk_resolveOpt (w : Bool) (r : Option (String → Option String)) (o : TEnv)
    (h : envOk w o) : envOk w (resolveOpt r o) := by
  cases r with
  | none => exact h
  | some r =>
    unfold envOk at h ⊢
    rw [show resolveOpt (some r) o = resolveConfigurationVariables r o from rfl,
      envKeys_resolve]
    exact h

theorem mem_resolveOpt_null {r : Option (String → Option String)} {o : TEnv} {k : String}
    (h : (k, EnvValue.null) ∈ o) : (k, EnvValue.null) ∈ resolveOpt r o := by
  cases r with
  | none => exact h
  | some r =>
    have := List.mem_map_of_mem (fun kv : String × EnvValue =>
      match kv.2 with
      | .str s => (kv.1, EnvValue.str (match r s with | some t => t | none => s))
      | v => (kv.1, v)) h
    simpa [resolveOpt, resolveConfigurationVariables] using this



theorem createTerminalEnvironment_strict (w : Bool) (lang : Option String)
    (slc : ShellLaunchConfig) (cfg : Option TEnv)
    (resolver : Option (String → Option String)) (version : Option String)
    (mode : DetectLocale) (base : TEnv) (h : slc.strictEnv = true) :
    createTerminalEnvironment w lang slc cfg resolver version mode base
      = mergeNonNullKeys [] slc.env := by
  unfold createTerminalEnvironment
  rw [h]
  rfl

theorem createTerminalEnvironment_nonstrict (w : Bool) (lang : Option String)
    (slc : ShellLaunchConfig) (cfg : Option TEnv)
    (resolver : Option (String → Option String)) (version : Option String)
    (mode : DetectLocale) (base : TEnv) (h : slc.strictEnv = false) :
    createTerminalEnvironment w lang slc cfg resolver version mode base
      = addTerminalEnvironmentKeys
          (mergeEnvironments w
            (mergeEnvironments w
              (sanitizeProcessEnvironment (mergeNonNullKeys [] (some base))
                ["VSCODE_IPC_HOOK_CLI", "VSCODE_PROXY_URI"])
              (some (resolveOpt resolver (orEmpty cfg))))
            ((slc.env).map (resolveOpt resolver)))
          version lang mode := by
  unfold createTerminalEnvironment
  rw [h]
  rfl

/-- C1: with `strictEnv` true, `createTerminalEnvironment` returns exactly
the string-valued entries of the launch-config overlay, dropping `null` and
`undefined` entries, independently of the base environment, the config
overlay, the resolver, the version and the locale mode, and injecting no
marker keys. -/
theorem claim_C1 (w : Bool) (lang : Option String) (slc : ShellLaunchConfig)
    (cfg : Option TEnv) (resolver : Option (String → Option String))
    (version : Option String) (mode : DetectLocale) (base : TEnv)
    (hstrict : slc.strictEnv = true)
    (hnodup : (envKeys (slc.env.getD [])).Nodup) :
    createTerminalEnvironment w lang slc cfg resolver version mode base
      = (slc.env.getD []).filter (fun kv => kv.2.isStr) := by
  rw [createTerminalEnvironment_strict w lang slc cfg resolver version mode base hstrict]
  cases henv : slc.env with
  | none => rfl
  | some o =>
    rw [henv] at hnodup
    simpa using mergeNonNullKeys_copy o [] (fun k hk => by simp [envKeys]) (by simpa using hnodup)

/-- C1 witness: the overlay with `A` mapped to a string and `B` mapped to
`null` yields exactly the `A` entry. -/
theorem claim_C1_witness :
    createTerminalEnvironment false none
      { strictEnv := true, env := some [("A", EnvValue.str "1"), ("B", EnvValue.null)] }
      none none none DetectLocale.off [("HOME", EnvValue.str "/root")]
      = [("A", EnvValue.str "1")] :=
  (claim_C1 false none
    { strictEnv := true, env := some [("A", EnvValue.str "1"), ("B", EnvValue.null)] }
    none none none DetectLocale.off [("HOME", EnvValue.str "/root")]
    rfl (by decide)).trans (by decide)

/-- C2: `mergeEnvironments` assigns string values, deletes on `null`,
skips `undefined`; on Windows the first base key with the same lowercase
form is mutated, keeping its casing and introducing no duplicate
differently-cased key (merging `Path` into `PATH` updates `PATH`);
elsewhere keys match exactly. -/
theorem claim_C2 :
    (∀ (parent : TEnv) (k s : String),
      mergeEnvironments false parent (some [(k, EnvValue.str s)])
        = setKey parent k (EnvValue.str s))
    ∧ (∀ (parent : TEnv) (k : String),
      mergeEnvironments false parent (some [(k, EnvValue.null)]) = delKey parent k)
    ∧ (∀ (w : Bool) (parent : TEnv) (k : String),
      mergeEnvironments w parent (some [(k, EnvValue.undef)]) = parent)
    ∧ (∀ (parent : TEnv) (k s : String),
      mergeEnvironments true parent (some [(k, EnvValue.str s)])
        = setKey parent (findActualKey parent k) (EnvValue.str s))
    ∧ (∀ (parent : TEnv) (k : String),
      mergeEnvironments true parent (some [(k, EnvValue.null)])
        = delKey parent (findActualKey parent k))
    ∧ (∀ (parent o : TEnv), envOk true parent →
      envOk true (mergeEnvironments true parent (some o)))
    ∧ mergeEnvironments true [("PATH", EnvValue.str "y")] (some [("Path", EnvValue.str "x")])
        = [("PATH", EnvValue.str "x")] := by
  refine ⟨fun parent k s => rfl, fun parent k => rfl, ?_, fun parent k s => rfl,
    fun parent k => rfl, fun parent o h => envOk_merge_true o parent h, by decide⟩
  intro w parent k
  cases w <;> rfl

/-- C2 witness: merging a mixed-case overlay into a case-duplicate-free
Windows environment keeps its normalised keys duplicate-free. -/
theorem claim_C2_witness :
    envOk true ([("PATH", EnvValue.str "y"), ("Home", EnvValue.str "/h")] : TEnv)
    ∧ envOk true (mergeEnvironments true [("PATH", EnvValue.str "y"), ("Home", EnvValue.str "/h")]
        (some [("Path", EnvValue.str "x"), ("New", EnvValue.str "n"), ("HOME", EnvValue.null)])) :=
  ⟨by decide, claim_C2.2.2.2.2.2.1
    [("PATH", EnvValue.str "y"), ("Home", EnvValue.str "/h")]
    [("Path", EnvValue.str "x"), ("New", EnvValue.str "n"), ("HOME", EnvValue.null)]
    (by decide)⟩

/-- C4 counterexample: on the tag `en-gb-x` the third segment is not
ignored; the code returns `en_GB_x.UTF-8`, not `en_GB.UTF-8` as the claim
states. -/
theorem claim_C4_counter :
    getLangEnvVariable (some "en-gb-x") = "en_GB_x.UTF-8"
    ∧ getLangEnvVariable (some "en-gb-x") ≠ "en_GB.UTF-8" := by decide

/-- C4 amended: for a tag with two or more dash-separated segments,
`getLangEnvVariable` joins all segments with underscores, uppercasing only
the second segment and keeping further segments unchanged, and appends
`.UTF-8`. -/
theorem claim_C4 (s : String) (p0 p1 : String) (rest : List String)
    (hne : s ≠ "")
    (hsplit : (splitDash s.data).map String.mk = p0 :: p1 :: rest) :
    getLangEnvVariable (some s) = joinParts (p0 :: toUpperStr p1 :: rest) ++ ".UTF-8" := by
  unfold getLangEnvVariable
  dsimp only
  rw [if_neg (by simpa using hne), hsplit]
  dsimp only [langFromParts]

/-- C4 witness: the two-segment tag `en-gb` uppercases the region. -/
theorem claim_C4_witness :
    getLangEnvVariable (some "en-gb") = joinParts ["en", toUpperStr "gb"] ++ ".UTF-8" :=
  claim_C4 "en-gb" "en" "gb" [] (by decide) (by decide)

/-- C5: `getLangEnvVariable` with no tag falls back to `en_US.UTF-8`; a
bare language found in the static table gets the region of the table; a
bare language missing from the table gets no region. -/
theorem claim_C5 :
    getLangEnvVariable none = "en_US.UTF-8"
    ∧ (∀ s region : String, s ≠ "" → (splitDash s.data).map String.mk = [s] →
        languageVariantFor s = some region →
        getLangEnvVariable (some s) = s ++ "_" ++ region ++ ".UTF-8")
    ∧ (∀ s : String, s ≠ "" → (splitDash s.data).map String.mk = [s] →
        languageVariantFor s = none →
        getLangEnvVariable (some s) = s ++ ".UTF-8")
    ∧ getLangEnvVariable (some "fr") = "fr_FR.UTF-8"
    ∧ getLangEnvVariable (some "pt") = "pt_BR.UTF-8"
    ∧ getLangEnvVariable (some "xx") = "xx.UTF-8" := by
  refine ⟨rfl, ?_, ?_, by decide, by decide, by decide⟩
  · intro s region hne hsplit htab
    unfold getLangEnvVariable
    dsimp only
    rw [if_neg (by simpa using hne), hsplit]
    dsimp only [langFromParts]
    rw [htab]
    rfl
  · intro s hne hsplit htab
    unfold getLangEnvVariable
    dsimp only
    rw [if_neg (by simpa using hne), hsplit]
    dsimp only [langFromParts]
    rw [htab]
    rfl

/-- C5 witness: the bare tag `fr` receives the region `FR` of the table. -/
theorem claim_C5_witness : getLangEnvVariable (some "fr") = "fr" ++ "_" ++ "FR" ++ ".UTF-8" :=
  claim_C5.2.1 "fr" "FR" (by decide) (by decide) (by decide)

/-- C6 counterexample: with `LANG` set to a value in which `.euc` is
followed only by a newline, the regex `\.euc.+` does not match (`.` skips
line terminators), so the code returns `true`, while the claim (`.euc`
followed by any characters) predicts `false`. -/
theorem claim_C6_counter :
    shouldSetLangEnvVariable [("LANG", EnvValue.str "a.euc\n")] DetectLocale.auto = true
    ∧ strContainsSub "a.euc\n" ".euc" = true := by decide

/-- C6 amended: `shouldSetLangEnvVariable` is true on `on`, false on
`off`; on `auto` it is true when `LANG` is absent, and for a non-empty
`LANG` it is false exactly when `LANG` ends with `.UTF-8`, ends with
`.utf8`, or contains `.euc` followed by at least one character that is not
a line terminator. -/
theorem claim_C6 :
    (∀ env : TEnv, shouldSetLangEnvVariable env DetectLocale.on = true)
    ∧ (∀ env : TEnv, shouldSetLangEnvVariable env DetectLocale.off = false)
    ∧ (∀ env : TEnv, lookupE env "LANG" = none →
        shouldSetLangEnvVariable env DetectLocale.auto = true)
    ∧ (∀ (env : TEnv) (lang : String), lookupE env "LANG" = some (EnvValue.str lang) →
        lang ≠ "" →
        (shouldSetLangEnvVariable env DetectLocale.auto = false ↔
          (listEndsWith lang.data ".UTF-8".data = true
            ∨ listEndsWith lang.data ".utf8".data = true
            ∨ hasEucPlus lang.data = true)))
    ∧ shouldSetLangEnvVariable [("LANG", EnvValue.str "en_US.UTF-8")] DetectLocale.auto = false
    ∧ shouldSetLangEnvVariable [] DetectLocale.auto = true
    ∧ shouldSetLangEnvVariable [("LANG", EnvValue.str "C")] DetectLocale.auto = true := by
  refine ⟨fun env => rfl, fun env => rfl, ?_, ?_, by decide, by decide, by decide⟩
  · intro env hlk
    unfold shouldSetLangEnvVariable
    rw [hlk]
  · intro env lang hlk hne
    unfold shouldSetLangEnvVariable
    rw [hlk]
    have hne2 : (lang == "") = false := by simpa using hne
    cases hx : listEndsWith lang.data ".UTF-8".data <;>
      cases hy : listEndsWith lang.data ".utf8".data <;>
        cases hz : hasEucPlus lang.data <;>
          simp [hne2, hx, hy, hz]

/-- C6 witness: an `euc` locale with trailing characters suppresses the
`LANG` injection in `auto` mode. -/
theorem claim_C6_witness :
    shouldSetLangEnvVariable [("LANG", EnvValue.str "ja_JP.eucJP")] DetectLocale.auto = false :=
  (claim_C6.2.2.2.1 [("LANG", EnvValue.str "ja_JP.eucJP")] "ja_JP.eucJP"
    (by decide) (by decide)).mpr (by decide)



theorem envKeys_resolveOpt (r : Option (String → Option String)) (o : TEnv) :
    envKeys (resolveOpt r o) = envKeys o := by
  cases r with
  | none => rfl
  | some r => exact envKeys_resolve r o

theorem envOk_mergeNonNull_base (base : TEnv) (hbok : envOk true base) :
    envOk true (mergeNonNullKeys [] (some base)) := by
  have hnodup : (envKeys base).Nodup := List.Nodup.of_map _ hbok
  rw [mergeNonNullKeys_copy base [] (fun k hk => by simp [envKeys]) hnodup]
  simpa using envOk_sublist (List.filter_sublist base) hbok

theorem create_lookup_str (w : Bool) (lang : Option String) (slc : ShellLaunchConfig)
    (cfg : Option TEnv) (resolver : Option (String → Option String))
    (version : Option String) (mode : DetectLocale) (base : TEnv) (o : TEnv) (k v : String)
    (hstrict : slc.strictEnv = false)
    (henv : slc.env = some o)
    (hok : envOk w (resolveOpt resolver o))
    (hmark : ∀ m ∈ (["TERM_PROGRAM", "TERM_PROGRAM_VERSION", "LANG", "COLORTERM"] : List String),
      toLowerStr k ≠ toLowerStr m)
    (hmem : (k, EnvValue.str v) ∈ resolveOpt resolver o) :
    lookupCase w (createTerminalEnvironment w lang slc cfg resolver version mode base) k
      = some (EnvValue.str v) := by
  rw [createTerminalEnvironment_nonstrict w lang slc cfg resolver version mode base hstrict,
    henv]
  simp only [Option.map_some']
  rw [addKeys_lookup_preserve w _ version lang mode k hmark]
  exact merge_lookup_str w (resolveOpt resolver o) k v hok hmem _

theorem create_lookup_null (w : Bool) (lang : Option String) (slc : ShellLaunchConfig)
    (cfg : Option TEnv) (resolver : Option (String → Option String))
    (version : Option String) (mode : DetectLocale) (base : TEnv) (o : TEnv) (k : String)
    (hstrict : slc.strictEnv = false)
    (henv : slc.env = some o)
    (hok : envOk w (resolveOpt resolver o))
    (hbase : w = true → envOk true base)
    (hmark : ∀ m ∈ (["TERM_PROGRAM", "TERM_PROGRAM_VERSION", "LANG", "COLORTERM"] : List String),
      toLowerStr k ≠ toLowerStr m)
    (hmem : (k, EnvValue.null) ∈ resolveOpt resolver o) :
    lookupCase w (createTerminalEnvironment w lang slc cfg resolver version mode base) k
      = none := by
  rw [createTerminalEnvironment_nonstrict w lang slc cfg resolver version mode base hstrict,
    henv]
  simp only [Option.map_some']
  rw [addKeys_lookup_preserve w _ version lang mode k hmark]
  apply merge_lookup_null w (resolveOpt resolver o) k hok hmem
  intro hw
  subst hw
  apply envOk_merge_true
  apply envOk_sublist (sanitize_sublist _ _)
  exact envOk_mergeNonNull_base base (hbase rfl)

/-- C3 counterexample: the launch-config overlay does not have final
precedence on the marker keys: an overlay mapping `TERM_PROGRAM` to `x` is
overwritten by the injected `vscode`. -/
theorem claim_C3_counter :
    lookupCase false
      (createTerminalEnvironment false none
        { env := some [("TERM_PROGRAM", EnvValue.str "x")] }
        none none none DetectLocale.off []) "TERM_PROGRAM"
      = some (EnvValue.str "vscode")
    ∧ lookupCase false
      (createTerminalEnvironment false none
        { env := some [("TERM_PROGRAM", EnvValue.str "x")] }
        none none none DetectLocale.off []) "TERM_PROGRAM"
      ≠ some (EnvValue.str "x") := by decide

/-- C3 amended: in a non-strict build, for every key whose lowercase form
is not among the injected marker keys `TERM_PROGRAM`,
`TERM_PROGRAM_VERSION`, `LANG`, `COLORTERM`, the launch-config overlay has
final precedence: a key it maps (after variable resolution) to a string is
mapped to that string in the result (case-aware on Windows), and a key it
maps to `null` is absent from the result. -/
theorem claim_C3 (w : Bool) (lang : Option String) (slc : ShellLaunchConfig)
    (cfg : Option TEnv) (resolver : Option (String → Option String))
    (version : Option String) (mode : DetectLocale) (base : TEnv) (o : TEnv) (k v : String)
    (hstrict : slc.strictEnv = false)
    (henv : slc.env = some o)
    (hok : envOk w (resolveOpt resolver o))
    (hbase : w = true → envOk true base)
    (hmark : ∀ m ∈ (["TERM_PROGRAM", "TERM_PROGRAM_VERSION", "LANG", "COLORTERM"] : List String),
      toLowerStr k ≠ toLowerStr m) :
    ((k, EnvValue.str v) ∈ resolveOpt resolver o →
      lookupCase w (createTerminalEnvironment w lang slc cfg resolver version mode base) k
        = some (EnvValue.str v))
    ∧ ((k, EnvValue.null) ∈ resolveOpt resolver o →
      lookupCase w (createTerminalEnvironment w lang slc cfg resolver version mode base) k
        = none) :=
  ⟨fun hmem => create_lookup_str w lang slc cfg resolver version mode base o k v
      hstrict henv hok hmark hmem,
    fun hmem => create_lookup_null w lang slc cfg resolver version mode base o k
      hstrict henv hok hbase hmark hmem⟩

/-- C3 witness: a non-marker key of the overlay overrides the base value,
applied at a concrete input. -/
theorem claim_C3_witness :
    lookupCase false
      (createTerminalEnvironment false none
        { env := some [("FOO", EnvValue.null), ("BAR", EnvValue.str "b")] }
        none none none DetectLocale.off [("BAR", EnvValue.str "old")]) "BAR"
      = some (EnvValue.str "b") :=
  (claim_C3 false none
    { env := some [("FOO", EnvValue.null), ("BAR", EnvValue.str "b")] }
    none none none DetectLocale.off [("BAR", EnvValue.str "old")]
    [("FOO", EnvValue.null), ("BAR", EnvValue.str "b")] "BAR" "b"
    rfl rfl (by decide) (by simp) (by decide)).1 (by decide)

/-- C7: the environment returned by `createTerminalEnvironment` never
contains a `null` or `undefined` value, and in a non-strict build a
non-marker key that the launch-config overlay maps to `null` is absent
from the result. -/
theorem claim_C7 :
    (∀ (w : Bool) (lang : Option String) (slc : ShellLaunchConfig) (cfg : Option TEnv)
        (resolver : Option (String → Option String)) (version : Option String)
        (mode : DetectLocale) (base : TEnv) (kv : String × EnvValue),
      kv ∈ createTerminalEnvironment w lang slc cfg resolver version mode base →
        kv.2.isStr = true)
    ∧ (∀ (w : Bool) (lang : Option String) (slc : ShellLaunchConfig) (cfg : Option TEnv)
        (resolver : Option (String → Option String)) (version : Option String)
        (mode : DetectLocale) (base : TEnv) (o : TEnv) (k : String),
      slc.strictEnv = false → slc.env = some o → envOk w (resolveOpt resolver o) →
      (w = true → envOk true base) →
      (∀ m ∈ (["TERM_PROGRAM", "TERM_PROGRAM_VERSION", "LANG", "COLORTERM"] : List String),
        toLowerStr k ≠ toLowerStr m) →
      (k, EnvValue.null) ∈ o →
      lookupCase w (createTerminalEnvironment w lang slc cfg resolver version mode base) k
        = none) := by
  constructor
  · intro w lang slc cfg resolver version mode base kv hmem
    cases hstrict : slc.strictEnv
    · rw [createTerminalEnvironment_nonstrict w lang slc cfg resolver version mode base
        hstrict] at hmem
      refine allStr_addKeys _ version lang mode ?_ kv hmem
      refine allStr_merge_opt w _ _ ?_
      refine allStr_merge w _ _ ?_
      refine allStr_sanitize _ _ ?_
      exact allStr_mergeNonNull_opt (some base) [] allStr_nil
    · rw [createTerminalEnvironment_strict w lang slc cfg resolver version mode base
        hstrict] at hmem
      exact allStr_mergeNonNull_opt slc.env [] allStr_nil kv hmem
  · intro w lang slc cfg resolver version mode base o k hstrict henv hok hbase hmark hmem
    exact create_lookup_null w lang slc cfg resolver version mode base o k hstrict henv hok
      hbase hmark (mem_resolveOpt_null hmem)

/-- C7 witness: a base key deleted by a `null` overlay entry is absent
from the result, applied at a concrete input. -/
theorem claim_C7_witness :
    lookupCase false
      (createTerminalEnvironment false none
        { env := some [("FOO", EnvValue.null)] }
        none none none DetectLocale.off [("FOO", EnvValue.str "f")]) "FOO"
      = none :=
  claim_C7.2 false none { env := some [("FOO", EnvValue.null)] }
    none none none DetectLocale.off [("FOO", EnvValue.str "f")]
    [("FOO", EnvValue.null)] "FOO"
    rfl rfl (by decide) (by simp) (by decide) (by decide)

/-- C10: the marker variables `VSCODE_IPC_HOOK_CLI` and `VSCODE_PROXY_URI`
are stripped only from the merged base environment, before the overlays
are merged: an overlay entry mapping one of them to a string survives into
the result, while a base entry not re-added by any overlay is absent. -/
theorem claim_C10 (w : Bool) (lang : Option String) (slc : ShellLaunchConfig)
    (cfg : Option TEnv) (resolver : Option (String → Option String))
    (version : Option String) (mode : DetectLocale) (base : TEnv) (k : String)
    (hstrict : slc.strictEnv = false)
    (hk : k = "VSCODE_IPC_HOOK_CLI" ∨ k = "VSCODE_PROXY_URI") :
    (∀ (o : TEnv) (v : String), slc.env = some o → envOk w (resolveOpt resolver o) →
      (k, EnvValue.str v) ∈ resolveOpt resolver o →
      lookupCase w (createTerminalEnvironment w lang slc cfg resolver version mode base) k
        = some (EnvValue.str v))
    ∧ ((envKeys base).Nodup →
      (∀ q ∈ base, keyNorm w q.1 = keyNorm w k → q.1 = k) →
      (∀ k' ∈ envKeys (resolveOpt resolver (orEmpty cfg)),
        keyNorm w k' ≠ keyNorm w k) →
      (∀ k' ∈ envKeys (slc.env.getD []), keyNorm w k' ≠ keyNorm w k) →
      lookupCase w (createTerminalEnvironment w lang slc cfg resolver version mode base) k
        = none) := by
  have hmark : ∀ m ∈ (["TERM_PROGRAM", "TERM_PROGRAM_VERSION", "LANG", "COLORTERM"] :
      List String), toLowerStr k ≠ toLowerStr m := by
    rcases hk with rfl | rfl <;> decide
  constructor
  · intro o v henv hok hmem
    exact create_lookup_str w lang slc cfg resolver version mode base o k v
      hstrict henv hok hmark hmem
  · intro hnodup hcase hcfg hslc
    rw [createTerminalEnvironment_nonstrict w lang slc cfg resolver version mode base hstrict]
    rw [addKeys_lookup_preserve w _ version lang mode k hmark]
    have hstep1 : ∀ e : TEnv,
        lookupCase w (mergeEnvironments w e ((slc.env).map (resolveOpt resolver))) k
          = lookupCase w e k := by
      intro e
      cases henv : slc.env with
      | none => rfl
      | some o2 =>
        simp only [Option.map_some']
        apply merge_lookup_preserve
        intro kv hkv
        apply hslc kv.1
        rw [henv]
        have hmem2 : kv.1 ∈ envKeys (resolveOpt resolver o2) :=
          List.mem_map_of_mem Prod.fst hkv
        rw [envKeys_resolveOpt] at hmem2
        simpa using hmem2
    rw [hstep1]
    rw [merge_lookup_preserve w _ k _ fun kv hkv =>
      hcfg kv.1 (List.mem_map_of_mem Prod.fst hkv)]
    rw [mergeNonNullKeys_copy base [] (fun k2 hk2 => by simp [envKeys]) hnodup]
    simp only [List.nil_append]
    apply sanitize_lookup_none
    · rcases hk with rfl | rfl <;> simp
    · intro q hq hnorm
      exact hcase q (List.mem_of_mem_filter hq) hnorm

/-- C10 witness: an overlay value for `VSCODE_PROXY_URI` survives
sanitization into the final environment. -/
theorem claim_C10_witness :
    lookupCase false
      (createTerminalEnvironment false none
        { env := some [("VSCODE_PROXY_URI", EnvValue.str "p")] }
        none none none DetectLocale.off
        [("VSCODE_PROXY_URI", EnvValue.str "old"), ("HOME", EnvValue.str "/h")])
      "VSCODE_PROXY_URI"
      = some (EnvValue.str "p") :=
  (claim_C10 false none { env := some [("VSCODE_PROXY_URI", EnvValue.str "p")] }
    none none none DetectLocale.off
    [("VSCODE_PROXY_URI", EnvValue.str "old"), ("HOME", EnvValue.str "/h")]
    "VSCODE_PROXY_URI" rfl (Or.inr rfl)).1
    [("VSCODE_PROXY_URI", EnvValue.str "p")] "p" rfl (by decide) (by decide)



/-- C8: with an explicit launch-config cwd, `getCwd` returns the sanitized
resolution of that cwd, independently of the user home, the workspace root
and the configured cwd; when the resolver fails on it, the sanitized
unresolved literal is returned instead of any fallback. -/
theorem claim_C8 (shell : ShellLaunchConfig) (userHome : Option String)
    (resolver : Option (String → Option String)) (root : Option String)
    (customCwd : Option String) (sanitizeCwd : String → String)
    (isAbsolute : String → Bool) (joinPath : String → String → String)
    (hcwd : cwdTruthy shell.cwd = true) :
    (getCwd shell userHome resolver root customCwd sanitizeCwd isAbsolute joinPath
      = sanitizeCwd (strOr (_resolveCwd (cwdLiteral shell.cwd) resolver)
          (cwdLiteral shell.cwd)))
    ∧ (∀ f : String → Option String, resolver = some f →
        f (cwdLiteral shell.cwd) = none →
        getCwd shell userHome resolver root customCwd sanitizeCwd isAbsolute joinPath
          = sanitizeCwd (cwdLiteral shell.cwd)) := by
  have h1 : getCwd shell userHome resolver root customCwd sanitizeCwd isAbsolute joinPath
      = sanitizeCwd (strOr (_resolveCwd (cwdLiteral shell.cwd) resolver)
          (cwdLiteral shell.cwd)) := by
    unfold getCwd
    rw [if_pos hcwd]
  refine ⟨h1, ?_⟩
  intro f hf hfail
  rw [h1, hf]
  simp [_resolveCwd, hfail, strOr]

/-- C8 witness: a failing resolver on an explicit cwd still yields the
sanitized literal, not the workspace root or user home. -/
theorem claim_C8_witness :
    getCwd { cwd := some (CwdSpec.str "/x") } (some "/home") (some fun _ => none)
      (some "/w") (some "/cfg") id (fun _ => false) (fun a b => a ++ "/" ++ b)
      = "/x" :=
  ((claim_C8 { cwd := some (CwdSpec.str "/x") } (some "/home") (some fun _ => none)
    (some "/w") (some "/cfg") id (fun _ => false) (fun a b => a ++ "/" ++ b)
    (by decide)).2 (fun _ => none) rfl rfl).trans rfl

/-- C9: when the target shell is PowerShell (the executable basename with
`.exe` stripped, or the title, is `pwsh` or `powershell`) and the path
contains a space or a single quote, `preparePathForShell` wraps the path
in `& q...q` quoting with inner single quotes doubled, for every target
OS, shell type and backend. -/
theorem claim_C9 (s exe title : String) (shellType : Option WindowsShellType)
    (backend : Option (String → Option String)) (os : Option OperatingSystem)
    (isWindowsFrontend : Bool) (esc : String → String)
    (hexe : exe ≠ "")
    (hps : pathBasename exe = "pwsh" ∨ title = "pwsh" ∨ pathBasename exe = "powershell"
      ∨ title = "powershell")
    (hq : strContainsChar s ' ' = true ∨ strContainsChar s squote = true) :
    preparePathForShell (PathResource.str s) (some exe) title shellType backend os
        isWindowsFrontend esc
      = "& " ++ String.singleton squote ++ doubleSquotes s ++ String.singleton squote := by
  have hps2 : (pathBasename exe == "pwsh" || title == "pwsh"
      || pathBasename exe == "powershell" || title == "powershell") = true := by
    rcases hps with h | h | h | h <;> simp [h]
  have hq2 : (strContainsChar s ' ' || strContainsChar s squote) = true := by
    rcases hq with h | h <;> simp [h]
  unfold preparePathForShell
  dsimp only
  rw [if_neg (by simp [optTruthy, hexe])]
  rw [if_pos (by rw [hps2, hq2]; rfl)]

/-- C9 witness: the executable `pwsh` with the space-containing path
`/a b/c` produces the quoted form. -/
theorem claim_C9_witness :
    preparePathForShell (PathResource.str "/a b/c") (some "pwsh") "" none none
      (some OperatingSystem.windows) false id
      = "& " ++ String.singleton squote ++ doubleSquotes "/a b/c" ++ String.singleton squote :=
  claim_C9 "/a b/c" "pwsh" "" none none (some OperatingSystem.windows) false id
    (by decide) (Or.inl (by decide)) (Or.inl (by decide))

end TerminalEnv
